import Mathlib

/-!
Verification development for two presentation-layer components of the
Reactive-Resume repository:

* `WorkModal` (src/apps/client/modals/builder/sections/WorkModal.tsx): a
  form modal that edits one work-experience record, validates it against a
  Joi schema, and dispatches add/edit actions to the store.
* `RichInput` toolbar (src/unnamed/part_000): a wrapper around a rich-text
  editor, in particular the link-insertion sub-form and the `setLink`
  command chain.

Pure functions are embedded as Lean functions; the React component's form
state is embedded as an explicit state machine; the external rich-text
engine's primitive commands are modelled on a single-paragraph document
(a list of characters, each carrying an optional link href).
-/

/-! ## WorkModal: data model -/

/-- The date sub-object of a work-experience record
(fields `start` and `end` of `WorkExperience.date`). -/
structure DateRange where
  start : String
  «end» : String
deriving DecidableEq

/-- The `WorkExperience` record edited by the modal (`type FormData = WorkExperience`).
`id` is the optional identifier distinguishing new from existing records. -/
structure WorkExperience where
  id : Option String
  name : String
  position : String
  date : DateRange
  url : String
  summary : String
deriving DecidableEq

/-- FormData is an alias of WorkExperience (type FormData = WorkExperience). -/
abbrev FormData := WorkExperience

/-- Source constant path: the section path "sections.work". -/
def path : String := "sections.work"

/-- The modal key `builder.${path}` used for `setModalState`. -/
def modalKey : String := "builder." ++ path

/-- The items path `${path}.items` used for `addItem` / `editItem`. -/
def itemsPath : String := path ++ ".items"

/-- Source constant defaultState: every field the empty string, no id. -/
def defaultState : FormData :=
  { id := none, name := "", position := "", date := ⟨"", ""⟩, url := "", summary := "" }

/-! ## WorkModal: the Joi schema

The schema declares: id an optional Joi string; name and position required
strings; the two date components, url and summary strings that also allow the
empty string; url additionally checked against the URL pattern.  A plain Joi
string rejects the empty string, and an optional key may be absent.  The
pattern check uses the JavaScript regex test, i.e. the regex may match
anywhere in the string (it is unanchored). -/

/-- Character class `[-a-zA-Z0-9@:%._+~#=]` of the URL regex. -/
def classAChar (c : Char) : Bool :=
  c.isAlpha || c.isDigit || "-@:%._+~#=".data.contains c

/-- Character class `[a-zA-Z0-9()]` of the URL regex. -/
def classBChar (c : Char) : Bool :=
  c.isAlpha || c.isDigit || c = '(' || c = ')'

/-- JavaScript word character `\w = [A-Za-z0-9_]`, used by the `\b` assertion. -/
def wordChar (c : Char) : Bool :=
  c.isAlpha || c.isDigit || c = '_'

/-- The `\b` word-boundary assertion between a preceding character and the rest
of the input: it holds when exactly one side is a word character (end of input
counts as a non-word side). -/
def wordBoundary (prev : Char) (rest : List Char) : Bool :=
  match rest with
  | [] => wordChar prev
  | c :: _ => wordChar prev != wordChar c

/-- Does the URL regex
`[-a-zA-Z0-9@:%._+~#=]{1,256}\.[a-zA-Z0-9()]{1,6}\b([-a-zA-Z0-9()@:%_+.~#?&//=]*)`
match starting exactly at the head of `cs`?  The trailing group is `*`-starred,
so it always matches (possibly empty) and imposes no constraint on a `test`;
the search is over the count of class-A characters (1..256) and class-B
characters (1..6). -/
def matchCore (cs : List Char) : Bool :=
  (List.range 256).any fun k =>
    let na := k + 1
    decide (na ≤ cs.length) && (cs.take na).all classAChar &&
      (match cs.drop na with
       | '.' :: rest =>
          (List.range 6).any fun j =>
            let nb := j + 1
            decide (nb ≤ rest.length) && (rest.take nb).all classBChar &&
              wordBoundary ((rest.take nb).getLastD '.') (rest.drop nb)
       | _ => false)

/-- Unanchored search: does the regex match at some position of `cs`? -/
def testAnywhere : List Char → Bool
  | [] => matchCore []
  | c :: t => matchCore (c :: t) || testAnywhere t

/-- JavaScript `urlRegex.test s` for the schema's URL pattern. -/
def urlPatternTest (s : String) : Bool := testAnywhere s.data

/-- The url key of the schema: a string matching the URL pattern, or empty. -/
def urlValid (u : String) : Bool := u == "" || urlPatternTest u

/-- The `id` key: `Joi.string()` — optional, but when present it must be a
non-empty string. -/
def validId : Option String → Bool
  | none => true
  | some s => s != ""

/-- A Joi string key that also allows the empty string: every string passes. -/
def validAllowEmptyString (_ : String) : Bool := true

/-- The date key: both components are strings that allow the empty string. -/
def validDate (dr : DateRange) : Bool :=
  validAllowEmptyString dr.start && validAllowEmptyString dr.«end»

/-- Full validation of a `FormData` against the Joi `schema` of WorkModal.tsx. -/
def validFormData (d : FormData) : Bool :=
  validId d.id && (d.name != "") && (d.position != "") && validDate d.date &&
    urlValid d.url && validAllowEmptyString d.summary

/-! ## WorkModal: dispatch and form state machine -/

/-- Actions the modal dispatches to the external store. -/
inductive StoreAction where
  | addItem (p : String) (value : FormData)
  | editItem (p : String) (value : FormData)
  | setModalState (modal : String) (isOpen : Bool)
deriving DecidableEq

/-- Fold a list of dispatched actions over an arbitrary store model. -/
def applyActions {σ : Type} (f : σ → StoreAction → σ) (s : σ) (as : List StoreAction) : σ :=
  as.foldl f s

/-- Source: isEditMode is the truthiness of the payload item. -/
def isEditMode (payload : Option FormData) : Bool := payload.isSome

/-- The add-or-edit dispatch of `onSubmit`:
`isEditMode ? editItem({path: `${path}.items`, value}) : addItem(...)`. -/
def dispatchedItemAction (e : Bool) (d : FormData) : StoreAction :=
  if e then StoreAction.editItem itemsPath d else StoreAction.addItem itemsPath d

/-- Actions dispatched by `onSubmit` once react-hook-form has accepted the
data: the add-or-edit dispatch followed by the setModalState dispatch of
`handleClose`. -/
def onSubmitActions (e : Bool) (d : FormData) : List StoreAction :=
  [dispatchedItemAction e d, StoreAction.setModalState modalKey false]

/-- Source handleSubmit(onSubmit): the joi resolver validates the form data first;
`onSubmit` runs only when validation succeeds, otherwise nothing is
dispatched and the field errors are shown locally. -/
def handleSubmitActions (e : Bool) (d : FormData) : List StoreAction :=
  if validFormData d then onSubmitActions e d else []

/-- The user-editable (registered) fields of the form: every field except `id`
has a bound input control. -/
structure RegisteredFields where
  name : String
  position : String
  dateStart : String
  dateEnd : String
  url : String
  summary : String
deriving DecidableEq

/-- Overwrite the registered fields of the form state with the user's entries;
`id` has no input control and is left untouched. -/
def setRegistered (d : FormData) (r : RegisteredFields) : FormData :=
  { id := d.id, name := r.name, position := r.position,
    date := ⟨r.dateStart, r.dateEnd⟩, url := r.url, summary := r.summary }

/-- The component's transient state: the react-hook-form field values
(initialised to `defaultState`), the current payload item and the open flag. -/
structure ModalComp where
  form : FormData
  payload : Option FormData
  isOpen : Bool
deriving DecidableEq

/-- Events driving the modal: the store opens it (with or without a payload
item), the user submits the form after editing the registered fields, or the
user closes it. -/
inductive ModalEvent where
  | openEv (p : Option FormData)
  | submitEv (r : RegisteredFields)
  | closeEv

/-- One step of the modal component, returning the new component state and the
actions dispatched to the store.

* open: the `useEffect` calls `reset(item)` only when the payload item is
  non-empty (`!isEmpty(item)`); without a payload the form keeps its state.
* submit: `handleSubmit` gates on the schema; on success `onSubmit` dispatches
  add-or-edit and then `handleClose` resets the form to `defaultState` and
  dispatches the closed modal state; on failure nothing is dispatched and the
  entered values stay.
* close: `handleClose` as above. -/
def modalStep (c : ModalComp) : ModalEvent → ModalComp × List StoreAction
  | ModalEvent.openEv p =>
      ({ form := match p with | some it => it | none => c.form,
         payload := p, isOpen := true }, [])
  | ModalEvent.submitEv r =>
      let d := setRegistered c.form r
      if validFormData d then
        ({ form := defaultState, payload := none, isOpen := false },
         [dispatchedItemAction (isEditMode c.payload) d,
          StoreAction.setModalState modalKey false])
      else
        ({ c with form := d }, [])
  | ModalEvent.closeEv =>
      ({ form := defaultState, payload := none, isOpen := false },
       [StoreAction.setModalState modalKey false])

/-! ## WorkModal: the DatePicker onChange handler -/

/-- A value handed to the DatePicker's `onChange`: either an invalid date
(`dayjs(date).isValid()` is false) or a valid one carrying the ISO-8601
instant string `date.toISOString()` would produce. -/
inductive DateValue where
  | invalid
  | valid (iso : String)
deriving DecidableEq

/-- Validity test of the handed date, dayjs(date).isValid(). -/
def dayjsIsValid : DateValue → Bool
  | DateValue.invalid => false
  | DateValue.valid _ => true

/-- lodash `isEmpty` on the keyboard input argument: `undefined` (change made
from the calendar view) and the empty string are empty. -/
def keyboardEmpty : Option String → Bool
  | none => true
  | some s => s == ""

/-- The values the handler commits through field.onChange, in order: the
empty string when the keyboard input is empty, then the ISO instant string
when the date is valid — nothing otherwise. -/
def datePickerCommits (d : DateValue) (k : Option String) : List String :=
  (if keyboardEmpty k then [""] else []) ++
    (match d with
     | DateValue.valid iso => [iso]
     | DateValue.invalid => [])

/-- The stored field value after the handler runs, starting from `prev`:
the last committed value, or `prev` when nothing was committed. -/
def datePickerOnChange (prev : String) (d : DateValue) (k : Option String) : String :=
  (datePickerCommits d k).getLastD prev

/-! ## RichInput: document and selection model

Modelled from the spec: the embedded rich-text editing engine (document
model, selections, mark commands, history) is an external collaborator of
this repository, out of scope of src/.  It is modelled here on a
single-paragraph document: a list of characters, each carrying an optional
link href (the only mark the claims mention), with a selection given by two
indices `selFrom ≤ selTo` into that list. -/

/-- One character of the document together with its optional link mark. -/
structure LChar where
  ch : Char
  link : Option String
deriving DecidableEq

/-- Modelled from the spec: the embedded editor's state — a document and the
current text selection `[selFrom, selTo)`. -/
structure EditorState where
  doc : List LChar
  selFrom : Nat
  selTo : Nat
deriving DecidableEq

/-- Is the character at index `i` marked with a link whose href is `h`? -/
def linkedAt (doc : List LChar) (h : String) (i : Nat) : Bool :=
  match doc.get? i with
  | some c => c.link == some h
  | none => false

/-- Modelled from the spec: `editor.getAttributes("link").href` — the href of
the link mark at the selection head, if any. -/
def getMarkHref (st : EditorState) : Option String :=
  (st.doc.get? st.selFrom).bind LChar.link

/-- Left end of the maximal run of characters marked `h` that contains the
given index (the index itself is assumed marked). -/
def runStart (doc : List LChar) (h : String) : Nat → Nat
  | 0 => 0
  | i + 1 => if linkedAt doc h i then runStart doc h i else i + 1

/-- Fuel-bounded scan to the right over characters marked `h`. -/
def runEndAux (doc : List LChar) (h : String) : Nat → Nat → Nat
  | 0, j => j
  | fuel + 1, j => if linkedAt doc h j then runEndAux doc h fuel (j + 1) else j

/-- Right end (exclusive) of the maximal run of characters marked `h`
starting at the given index; `doc.length + 1` fuel always suffices. -/
def runEnd (doc : List LChar) (h : String) (j : Nat) : Nat :=
  runEndAux doc h (doc.length + 1) j

/-- Modelled from the spec: the `extendMarkRange("link")` command — if a link
mark sits at the selection head, and its full contiguous range covers the
current selection, the selection becomes that full range; otherwise the
state is unchanged. -/
def extendMarkRange (st : EditorState) : EditorState :=
  match getMarkHref st with
  | none => st
  | some h =>
      let a := runStart st.doc h st.selFrom
      let b := runEnd st.doc h st.selFrom
      if a ≤ st.selFrom ∧ st.selTo ≤ b then ⟨st.doc, a, b⟩ else st

/-- Apply `f` to the characters in the index range `[lo, hi)`. -/
def mapRange (doc : List LChar) (lo hi : Nat) (f : LChar → LChar) : List LChar :=
  doc.take lo ++ ((doc.drop lo).take (hi - lo)).map f ++ doc.drop hi

/-- Modelled from the spec: the `unsetLink()` command — remove the link mark
from every character of the current selection. -/
def unsetLink (st : EditorState) : EditorState :=
  ⟨mapRange st.doc st.selFrom st.selTo (fun c => ⟨c.ch, none⟩), st.selFrom, st.selTo⟩

/-- Modelled from the spec: the `setLink({ href })` command — apply the link
mark with the given href to every character of the current selection. -/
def setLinkMark (st : EditorState) (href : String) : EditorState :=
  ⟨mapRange st.doc st.selFrom st.selTo (fun c => ⟨c.ch, some href⟩), st.selFrom, st.selTo⟩

/-- Modelled from the spec: `insertContentAt({ from, to }, text)` — replace
the range `[lo, hi)` with the plain (unmarked) characters of `text`, leaving
the cursor collapsed after the insertion. -/
def insertContentAt (st : EditorState) (lo hi : Nat) (text : String) : EditorState :=
  ⟨st.doc.take lo ++ text.data.map (fun c => ⟨c, none⟩) ++ st.doc.drop hi,
   lo + text.length, lo + text.length⟩

/-- Modelled from the spec: `setTextSelection({ from, to })` — set the
selection, clamped to the document size. -/
def setTextSelection (st : EditorState) (lo hi : Nat) : EditorState :=
  ⟨st.doc, min lo st.doc.length, min hi st.doc.length⟩

/-- Modelled from the spec: `tr.insertText(text)` after `setLink` on a
collapsed-or-extended selection — replace the selection with `text`, the
inserted characters inheriting the link mark `href`. -/
def insertTextWithLink (st : EditorState) (href text : String) : EditorState :=
  ⟨st.doc.take st.selFrom ++ text.data.map (fun c => ⟨c, some href⟩) ++ st.doc.drop st.selTo,
   st.selFrom + text.length, st.selFrom + text.length⟩

/-- The three branches of the toolbar's `setLink` callback: empty URL,
collapsed selection, and non-empty selection. -/
inductive LinkBranch where
  | remove
  | insertNew
  | replaceSel
deriving DecidableEq

/-- Which branch of `Toolbar.setLink` runs for a given state and URL:
`url === ""` selects the link-removal branch, else `from === to` selects the
new-text branch, else the selection-replacement branch. -/
def setLinkBranch (st : EditorState) (url : String) : LinkBranch :=
  if url = "" then LinkBranch.remove
  else if st.selFrom = st.selTo then LinkBranch.insertNew
  else LinkBranch.replaceSel

/-- The toolbar's `setLink(url, displayText)` callback (src/unnamed/part_000,
`Toolbar`): `from`/`to` are captured from the selection before the chain
runs, then

* empty url: `extendMarkRange("link").unsetLink().insertContentAt({from,to}, displayText)`;
* `from === to`: `extendMarkRange("link").setLink({href: url})` then
  `tr.insertText(displayText)`;
* otherwise: `insertContentAt({from,to}, displayText)
  .setTextSelection({from, to: from + displayText.length})
  .extendMarkRange("link").setLink({href: url})`. -/
def Toolbar.setLink (st : EditorState) (url displayText : String) : EditorState :=
  let lo := st.selFrom
  let hi := st.selTo
  match setLinkBranch st url with
  | LinkBranch.remove =>
      insertContentAt (unsetLink (extendMarkRange st)) lo hi displayText
  | LinkBranch.insertNew =>
      insertTextWithLink (setLinkMark (extendMarkRange st) url) url displayText
  | LinkBranch.replaceSel =>
      setLinkMark
        (extendMarkRange
          (setTextSelection (insertContentAt st lo hi displayText) lo (lo + displayText.length)))
        url

/-- Modelled from the spec: `doc.textBetween(from, to, " ")` on the
single-paragraph document — the text of the characters in `[lo, hi)`. -/
def textBetween (doc : List LChar) (lo hi : Nat) : String :=
  String.mk (((doc.drop lo).take (hi - lo)).map LChar.ch)

/-- Rendering `InsertLinkForm`: when `previousUrl` is truthy (a link with a
non-empty href covers the selection head) the form extends the selection to
the link's full range so the whole display text is editable. -/
def linkPopoverOpen (st : EditorState) : EditorState :=
  match getMarkHref st with
  | some u => if u = "" then st else extendMarkRange st
  | none => st

/-- The default values of `InsertLinkForm`: the URL field defaults to
`previousUrl || "https://"`, the display-text field to the text between the
selection boundaries after the range extension. -/
def linkFormDefaults (st : EditorState) : String × String :=
  let url := match getMarkHref st with
    | some u => if u = "" then "https://" else u
    | none => "https://"
  let st1 := linkPopoverOpen st
  (url, textBetween st1.doc st1.selFrom st1.selTo)

/-- Submitting the link sub-form on an editor in state `st`: the popover has
already rendered (extending the selection over an existing link), and
`onInsert` calls the toolbar's `setLink(url, displayText)`. -/
def submitLinkForm (st : EditorState) (url displayText : String) : EditorState :=
  Toolbar.setLink (linkPopoverOpen st) url displayText

/-! ## RichInput: undo history -/

/-- Modelled from the spec: the embedded editor's internal history — the
stack of prior document states and the current one. -/
structure EditorHistory where
  past : List (List LChar)
  current : List LChar
deriving DecidableEq

/-- Modelled from the spec: `editor.can().undo()` — there is a prior state to
revert to. -/
def EditorHistory.canUndo (hst : EditorHistory) : Bool := !hst.past.isEmpty

/-- Modelled from the spec: the undo command — revert to the most recent
prior state, or do nothing when there is none. -/
def EditorHistory.undo (hst : EditorHistory) : EditorHistory :=
  match hst.past with
  | [] => hst
  | p :: rest => ⟨rest, p⟩

/-- The toolbar's Undo button: `disabled={!editor.can().undo()}`, recomputed
as a pure function of the editor state on each render. -/
def undoButtonDisabled (hst : EditorHistory) : Bool := !hst.canUndo

/-! ## Sample values used by the witnesses -/

/-- A sample stored record with an identifier. -/
def sampleRecord : FormData :=
  { id := some "id1", name := "Acme", position := "Dev",
    date := ⟨"", ""⟩, url := "", summary := "" }

/-- Sample user entries for the registered fields (a valid record). -/
def sampleFields : RegisteredFields :=
  { name := "Acme", position := "Dev", dateStart := "", dateEnd := "",
    url := "", summary := "" }

/-- The form state as initialised on open: the payload item when present,
the declared defaults otherwise. -/
def initialFormState : Option FormData → FormData
  | none => defaultState
  | some it => it

/-- A document `xaby` whose middle two characters carry a link to "u". -/
def sampleLinkedDoc : List LChar :=
  [⟨'x', none⟩, ⟨'a', some "u"⟩, ⟨'b', some "u"⟩, ⟨'y', none⟩]

/-- A document `ab` whose second character carries a link to "u". -/
def mixedDoc : List LChar :=
  [⟨'a', none⟩, ⟨'b', some "u"⟩]

/-- A document `xABy` with no links. -/
def plainDoc : List LChar :=
  [⟨'x', none⟩, ⟨'A', none⟩, ⟨'B', none⟩, ⟨'y', none⟩]

/-- A document `ay` whose first character carries a link to "u": a link mark
sits at the selection head of `[0, 2)` without covering that selection. -/
def headLinkedDoc : List LChar :=
  [⟨'a', some "u"⟩, ⟨'y', none⟩]

/-! ## Theorems: WorkModal -/

/-- C1: the add/edit dispatch fires only if the submitted record passes the
full Joi schema; when validation fails, `handleSubmit` dispatches nothing at
all, so the store state is unchanged under any store model. -/
theorem workModal_submit_validation_gate (e : Bool) (d : FormData)
    (h : validFormData d = false) :
    handleSubmitActions e d = [] ∧
    ∀ (σ : Type) (f : σ → StoreAction → σ) (s : σ),
      applyActions f s (handleSubmitActions e d) = s := by
  have hnil : handleSubmitActions e d = [] := by
    unfold handleSubmitActions
    rw [if_neg (by rw [h]; exact Bool.false_ne_true)]
  exact ⟨hnil, fun σ f s => by rw [hnil]; rfl⟩

/-- Witness for C1: the declared default state (empty name) fails validation,
and submitting it dispatches nothing. -/
theorem workModal_submit_validation_gate_witness :
    validFormData defaultState = false ∧ handleSubmitActions true defaultState = [] :=
  ⟨by decide, (workModal_submit_validation_gate true defaultState (by decide)).1⟩

/-- C2: provided payload items carry an identifier, the submitted record has
an identifier exactly in edit mode, and the add-or-edit choice follows that
identifier: present selects `editItem`, absent selects `addItem`. -/
theorem workModal_branch_by_identifier (payload : Option FormData) (r : RegisteredFields)
    (hid : ∀ it, payload = some it → it.id.isSome = true) :
    ((setRegistered (initialFormState payload) r).id.isSome = true →
      onSubmitActions (isEditMode payload) (setRegistered (initialFormState payload) r) =
        [StoreAction.editItem itemsPath (setRegistered (initialFormState payload) r),
         StoreAction.setModalState modalKey false]) ∧
    ((setRegistered (initialFormState payload) r).id = none →
      onSubmitActions (isEditMode payload) (setRegistered (initialFormState payload) r) =
        [StoreAction.addItem itemsPath (setRegistered (initialFormState payload) r),
         StoreAction.setModalState modalKey false]) := by
  cases payload with
  | none =>
      constructor
      · intro hs
        simp [setRegistered, initialFormState, defaultState] at hs
      · intro _
        simp [onSubmitActions, dispatchedItemAction, isEditMode]
  | some it =>
      have hits : it.id.isSome = true := hid it rfl
      constructor
      · intro _
        simp [onSubmitActions, dispatchedItemAction, isEditMode]
      · intro hn
        simp [setRegistered, initialFormState] at hn
        rw [hn] at hits
        simp [Option.isSome] at hits

/-- Witness for C2: a stored record with id "id1" opened for edit is
dispatched through `editItem`. -/
theorem workModal_branch_by_identifier_witness :
    (setRegistered (initialFormState (some sampleRecord)) sampleFields).id.isSome = true ∧
    onSubmitActions (isEditMode (some sampleRecord))
        (setRegistered (initialFormState (some sampleRecord)) sampleFields) =
      [StoreAction.editItem itemsPath
         (setRegistered (initialFormState (some sampleRecord)) sampleFields),
       StoreAction.setModalState modalKey false] :=
  ⟨by decide,
   (workModal_branch_by_identifier (some sampleRecord) sampleFields
      (by intro it hit; injection hit with h2; subst h2; decide)).1 (by decide)⟩

/-- C3: closing the modal — explicitly or after a valid submit — resets the
form to the declared defaults, dispatches the modal-closed state to the
store, and a subsequent open without payload shows the defaults. -/
theorem workModal_close_resets (c : ModalComp) (r : RegisteredFields)
    (hv : validFormData (setRegistered c.form r) = true) :
    ((modalStep c ModalEvent.closeEv).1.form = defaultState ∧
     (modalStep c ModalEvent.closeEv).1.isOpen = false ∧
     StoreAction.setModalState modalKey false ∈ (modalStep c ModalEvent.closeEv).2 ∧
     (modalStep (modalStep c ModalEvent.closeEv).1 (ModalEvent.openEv none)).1.form
       = defaultState) ∧
    ((modalStep c (ModalEvent.submitEv r)).1.form = defaultState ∧
     (modalStep c (ModalEvent.submitEv r)).1.isOpen = false ∧
     StoreAction.setModalState modalKey false ∈ (modalStep c (ModalEvent.submitEv r)).2 ∧
     (modalStep (modalStep c (ModalEvent.submitEv r)).1 (ModalEvent.openEv none)).1.form
       = defaultState) := by
  constructor
  · exact ⟨rfl, rfl, by simp [modalStep], rfl⟩
  · have hstep : modalStep c (ModalEvent.submitEv r) =
        ({ form := defaultState, payload := none, isOpen := false },
         [dispatchedItemAction (isEditMode c.payload) (setRegistered c.form r),
          StoreAction.setModalState modalKey false]) := by
      unfold modalStep
      simp only []
      rw [if_pos hv]
    rw [hstep]
    exact ⟨rfl, rfl, by simp, rfl⟩

/-- Witness for C3: a valid submission from the default-open modal resets the
form to the defaults. -/
theorem workModal_close_resets_witness :
    validFormData (setRegistered defaultState sampleFields) = true ∧
    (modalStep ⟨defaultState, none, true⟩ (ModalEvent.submitEv sampleFields)).1.form
      = defaultState :=
  ⟨by decide,
   (workModal_close_resets ⟨defaultState, none, true⟩ sampleFields (by decide)).2.1⟩

/-- C4: opening the modal with a payload record pre-populates the form with
exactly that record's values; opening without a payload from the default
form state shows the declared defaults. -/
theorem workModal_open_prepopulates (c : ModalComp) (it : FormData)
    (hd : c.form = defaultState) :
    (modalStep c (ModalEvent.openEv (some it))).1.form = it ∧
    (modalStep c (ModalEvent.openEv (some it))).1.isOpen = true ∧
    (modalStep c (ModalEvent.openEv none)).1.form = defaultState ∧
    (modalStep c (ModalEvent.openEv none)).1.isOpen = true := by
  exact ⟨rfl, rfl, by simp [modalStep, hd], rfl⟩

/-- Witness for C4: opening a freshly mounted modal with the sample record
shows the sample record. -/
theorem workModal_open_prepopulates_witness :
    (⟨defaultState, none, false⟩ : ModalComp).form = defaultState ∧
    (modalStep ⟨defaultState, none, false⟩ (ModalEvent.openEv (some sampleRecord))).1.form
      = sampleRecord :=
  ⟨by decide,
   (workModal_open_prepopulates ⟨defaultState, none, false⟩ sampleRecord (by decide)).1⟩

/-- C5: an invalid date together with a non-empty keyboard input commits
nothing, leaving the stored field value unchanged; and every value the
handler ever commits is either the empty string or the ISO string of a valid
date. -/
theorem datePicker_invalid_input_preserves_value (prev s : String)
    (hs : s ≠ "") :
    datePickerOnChange prev DateValue.invalid (some s) = prev ∧
    datePickerCommits DateValue.invalid (some s) = [] ∧
    ∀ d k v, v ∈ datePickerCommits d k → v = "" ∨ d = DateValue.valid v := by
  have hke : keyboardEmpty (some s) = false := by
    unfold keyboardEmpty
    exact beq_eq_false_iff_ne.mpr hs
  have hcom : datePickerCommits DateValue.invalid (some s) = [] := by
    unfold datePickerCommits
    rw [hke]
    simp
  refine ⟨?_, hcom, ?_⟩
  · unfold datePickerOnChange
    rw [hcom]
    rfl
  · intro d k v hv
    unfold datePickerCommits at hv
    cases d with
    | invalid =>
        left
        rcases List.mem_append.mp hv with h1 | h2
        · cases hke2 : keyboardEmpty k <;> rw [hke2] at h1 <;> simp at h1
          exact h1
        · simp at h2
    | valid iso =>
        rcases List.mem_append.mp hv with h1 | h2
        · left
          cases hke2 : keyboardEmpty k <;> rw [hke2] at h1 <;> simp at h1
          exact h1
        · right
          simp at h2
          rw [h2]

/-- Witness for C5: typing an unparseable date over a stored ISO instant
leaves the stored value unchanged. -/
theorem datePicker_invalid_input_preserves_value_witness :
    ("Janu" : String) ≠ "" ∧
    datePickerOnChange "2020-01-01T00:00:00.000Z" DateValue.invalid (some "Janu")
      = "2020-01-01T00:00:00.000Z" :=
  ⟨by decide,
   (datePicker_invalid_input_preserves_value "2020-01-01T00:00:00.000Z" "Janu" (by decide)).1⟩

/-- C6: the pattern-based URL validator accepts "example.com", a string that
contains no scheme (it contains no colon at all). -/
theorem url_validator_accepts_schemeless :
    urlValid "example.com" = true ∧
    "example.com".data.all (fun c => decide (c ≠ ':')) = true := by
  constructor
  · decide
  · decide

/-! ## Theorems: RichInput toolbar -/

/-- C9: the toolbar Undo button is disabled exactly when the editor's history
holds no prior state to revert to — equivalently, exactly when the undo
command would change nothing — and the disabled flag is recomputed as a pure
function of the editor state. -/
theorem toolbar_undo_disabled_iff_no_history (hst : EditorHistory) :
    (undoButtonDisabled hst = true ↔ hst.past = []) ∧
    (hst.past = [] ↔ EditorHistory.undo hst = hst) := by
  obtain ⟨past, cur⟩ := hst
  constructor
  · constructor
    · intro hd
      cases past with
      | nil => rfl
      | cons p rest =>
          simp [undoButtonDisabled, EditorHistory.canUndo] at hd
    · intro hp
      subst hp
      rfl
  · constructor
    · intro hp
      subst hp
      rfl
    · intro hu
      cases past with
      | nil => rfl
      | cons p rest =>
          unfold EditorHistory.undo at hu
          have hpast := congrArg EditorHistory.past hu
          simp at hpast

/-- C10 counterexample: on the document `ay` with only `a` linked to "u" and
selection `[0, 2)`, no link mark covers the selection (coverage in the sense
of C7: every selected index linked with the head mark), yet the link form
pre-fills the URL field with "u", not "https://" — the claim, which
hypothesises only the absence of a covering link, fails here. -/
theorem link_form_pristine_cex :
    (∀ h : String, getMarkHref ⟨headLinkedDoc, 0, 2⟩ = some h →
      ¬ (∀ i, i < headLinkedDoc.length → 0 ≤ i → i < 2 →
          linkedAt headLinkedDoc h i = true)) ∧
    (linkFormDefaults ⟨headLinkedDoc, 0, 2⟩).1 = "u" ∧
    (linkFormDefaults ⟨headLinkedDoc, 0, 2⟩).1 ≠ "https://" := by
  refine ⟨?_, by decide, by decide⟩
  intro h hh hcov
  have h1 : (some "u" : Option String) = some h := by
    rw [← hh]
    decide
  have h2 : h = "u" := (Option.some.inj h1).symm
  subst h2
  exact absurd (hcov 1 (by decide) (by decide) (by decide)) (by decide)

/-- C10 (amended): when no link mark sits at the selection head — the code's
own previousUrl probe, so getAttributes yields no href — the link form's URL
field is initialised to the non-empty constant "https://" and its
display-text field to the text between the selection boundaries; since the
link-removal branch requires an empty URL, a pristine form never selects it. -/
theorem link_form_pristine_url_nonempty (st : EditorState)
    (hnolink : getMarkHref st = none) :
    (linkFormDefaults st).1 = "https://" ∧
    (linkFormDefaults st).2 = textBetween st.doc st.selFrom st.selTo ∧
    (linkFormDefaults st).1 ≠ "" ∧
    ∀ st2 : EditorState, setLinkBranch st2 (linkFormDefaults st).1 ≠ LinkBranch.remove := by
  have hpop : linkPopoverOpen st = st := by
    unfold linkPopoverOpen
    rw [hnolink]
  have hurl : (linkFormDefaults st).1 = "https://" := by
    unfold linkFormDefaults
    rw [hnolink]
  refine ⟨hurl, ?_, ?_, ?_⟩
  · unfold linkFormDefaults
    rw [hnolink, hpop]
  · rw [hurl]
    decide
  · intro st2
    rw [hurl]
    unfold setLinkBranch
    rw [if_neg (by decide)]
    split <;> simp

/-- Witness for C10: in an empty document the pristine link form's URL field
is "https://". -/
theorem link_form_pristine_url_nonempty_witness :
    getMarkHref ⟨[], 0, 0⟩ = none ∧
    (linkFormDefaults ⟨[], 0, 0⟩).1 = "https://" :=
  ⟨by decide, (link_form_pristine_url_nonempty ⟨[], 0, 0⟩ (by decide)).1⟩

/-! ## Helper lemmas about link runs and `mapRange` -/

theorem linkedAt_lt_length {doc : List LChar} {h : String} {i : Nat}
    (hl : linkedAt doc h i = true) : i < doc.length := by
  by_contra hge
  have hnone : doc.get? i = none := List.get?_eq_none.mpr (Nat.le_of_not_lt hge)
  unfold linkedAt at hl
  rw [hnone] at hl
  exact Bool.false_ne_true hl

theorem linkedAt_getMarkHref {doc : List LChar} {h : String} {i : Nat}
    (hl : linkedAt doc h i = true) : (doc.get? i).bind LChar.link = some h := by
  unfold linkedAt at hl
  cases hg : doc.get? i with
  | none => rw [hg] at hl; exact absurd hl Bool.false_ne_true
  | some c =>
      rw [hg] at hl
      simp only [Option.bind]
      exact beq_iff_eq.mp hl

theorem runStart_le (doc : List LChar) (h : String) : ∀ i, runStart doc h i ≤ i := by
  intro i
  induction i with
  | zero => exact Nat.le_refl 0
  | succ n ih =>
      unfold runStart
      split
      · exact Nat.le_trans ih (Nat.le_succ n)
      · exact Nat.le_refl _

theorem runStart_linked (doc : List LChar) (h : String) :
    ∀ i, linkedAt doc h i = true →
      ∀ j, runStart doc h i ≤ j → j ≤ i → linkedAt doc h j = true := by
  intro i
  induction i with
  | zero =>
      intro hi j _ hj2
      have : j = 0 := Nat.le_zero.mp hj2
      subst this
      exact hi
  | succ n ih =>
      intro hi j hj1 hj2
      unfold runStart at hj1
      by_cases hn : linkedAt doc h n = true
      · rw [if_pos hn] at hj1
        rcases Nat.lt_or_ge j (n + 1) with hlt | hge
        · exact ih hn j hj1 (Nat.lt_succ_iff.mp hlt)
        · have : j = n + 1 := Nat.le_antisymm hj2 hge
          subst this
          exact hi
      · rw [if_neg hn] at hj1
        have : j = n + 1 := Nat.le_antisymm hj2 hj1
        subst this
        exact hi

theorem runStart_max (doc : List LChar) (h : String) :
    ∀ i, runStart doc h i = 0 ∨ linkedAt doc h (runStart doc h i - 1) = false := by
  intro i
  induction i with
  | zero => left; rfl
  | succ n ih =>
      unfold runStart
      by_cases hn : linkedAt doc h n = true
      · rw [if_pos hn]; exact ih
      · rw [if_neg hn]
        right
        rw [Nat.add_sub_cancel]
        exact Bool.not_eq_true _ ▸ eq_false_of_ne_true hn

theorem runStart_fix (doc : List LChar) (h : String) (i : Nat)
    (hmax : i = 0 ∨ linkedAt doc h (i - 1) = false) : runStart doc h i = i := by
  cases i with
  | zero => rfl
  | succ n =>
      rcases hmax with h0 | hF
      · exact absurd h0 (Nat.succ_ne_zero n)
      · unfold runStart
        rw [Nat.add_sub_cancel] at hF
        rw [if_neg (by rw [hF]; exact Bool.false_ne_true)]

theorem runEndAux_ge (doc : List LChar) (h : String) :
    ∀ fuel j, j ≤ runEndAux doc h fuel j := by
  intro fuel
  induction fuel with
  | zero => intro j; exact Nat.le_refl j
  | succ n ih =>
      intro j
      unfold runEndAux
      split
      · exact Nat.le_trans (Nat.le_succ j) (ih (j + 1))
      · exact Nat.le_refl j

theorem runEndAux_linked (doc : List LChar) (h : String) :
    ∀ fuel j k, j ≤ k → k < runEndAux doc h fuel j → linkedAt doc h k = true := by
  intro fuel
  induction fuel with
  | zero =>
      intro j k h1 h2
      unfold runEndAux at h2
      omega
  | succ n ih =>
      intro j k h1 h2
      unfold runEndAux at h2
      by_cases hb : linkedAt doc h j = true
      · rw [if_pos hb] at h2
        rcases Nat.eq_or_lt_of_le h1 with heq | hlt
        · subst heq; exact hb
        · exact ih (j + 1) k hlt h2
      · rw [if_neg hb] at h2
        omega

theorem runEndAux_not_linked (doc : List LChar) (h : String) :
    ∀ fuel j, doc.length ≤ j + fuel →
      linkedAt doc h (runEndAux doc h fuel j) = false := by
  intro fuel
  induction fuel with
  | zero =>
      intro j hle
      unfold runEndAux
      have hnone : doc.get? j = none := List.get?_eq_none.mpr (by omega)
      unfold linkedAt
      rw [hnone]
  | succ n ih =>
      intro j hle
      unfold runEndAux
      by_cases hb : linkedAt doc h j = true
      · rw [if_pos hb]
        exact ih (j + 1) (by omega)
      · rw [if_neg hb]
        exact Bool.not_eq_true _ ▸ eq_false_of_ne_true hb

theorem runEndAux_le_length (doc : List LChar) (h : String) :
    ∀ fuel j, j ≤ doc.length → runEndAux doc h fuel j ≤ doc.length := by
  intro fuel
  induction fuel with
  | zero => intro j hj; exact hj
  | succ n ih =>
      intro j hj
      unfold runEndAux
      by_cases hb : linkedAt doc h j = true
      · rw [if_pos hb]
        exact ih (j + 1) (linkedAt_lt_length hb)
      · rw [if_neg hb]
        exact hj

theorem runEndAux_eq (doc : List LChar) (h : String) :
    ∀ fuel j m, j ≤ m → m - j ≤ fuel →
      (∀ k, j ≤ k → k < m → linkedAt doc h k = true) →
      linkedAt doc h m = false →
      runEndAux doc h fuel j = m := by
  intro fuel
  induction fuel with
  | zero =>
      intro j m h1 h2 _ _
      have : m = j := by omega
      subst this
      rfl
  | succ n ih =>
      intro j m h1 h2 h3 h4
      unfold runEndAux
      rcases Nat.eq_or_lt_of_le h1 with heq | hlt
      · subst heq
        rw [if_neg (by rw [h4]; exact Bool.false_ne_true)]
      · have hbj : linkedAt doc h j = true := h3 j (Nat.le_refl j) hlt
        rw [if_pos hbj]
        exact ih (j + 1) m hlt (by omega) (fun k hk1 hk2 => h3 k (by omega) hk2) h4

theorem mapRange_take (doc : List LChar) (lo hi : Nat) (f : LChar → LChar)
    (h2 : lo ≤ doc.length) :
    (mapRange doc lo hi f).take lo = doc.take lo := by
  unfold mapRange
  rw [List.append_assoc]
  exact List.take_left' (by rw [List.length_take]; omega)

theorem mapRange_drop (doc : List LChar) (lo hi : Nat) (f : LChar → LChar)
    (h1 : lo ≤ hi) (h2 : hi ≤ doc.length) :
    (mapRange doc lo hi f).drop hi = doc.drop hi := by
  unfold mapRange
  exact List.drop_left'
    (by
      rw [List.length_append, List.length_take, List.length_map, List.length_take,
        List.length_drop]
      omega)

theorem mapRange_append (A M B : List LChar) (lo hi : Nat) (f : LChar → LChar)
    (hA : A.length = lo) (hM : lo + M.length = hi) :
    mapRange (A ++ M ++ B) lo hi f = A ++ M.map f ++ B := by
  have hAM : (A ++ M).length = hi := by rw [List.length_append]; omega
  unfold mapRange
  rw [List.append_assoc A M B]
  rw [List.take_left' hA, List.drop_left' hA,
    List.take_left' (show M.length = hi - lo by omega),
    ← List.append_assoc A M B, List.drop_left' hAM]

theorem runEnd_gt (doc : List LChar) (h : String) (j : Nat)
    (hl : linkedAt doc h j = true) : j + 1 ≤ runEnd doc h j := by
  unfold runEnd runEndAux
  rw [if_pos hl]
  exact runEndAux_ge doc h doc.length (j + 1)

theorem getMarkHref_linkedAt {doc : List LChar} {h : String} {lo hi : Nat}
    (hat : getMarkHref ⟨doc, lo, hi⟩ = some h) : linkedAt doc h lo = true := by
  unfold getMarkHref at hat
  dsimp only at hat
  unfold linkedAt
  cases hg : doc.get? lo with
  | none =>
      rw [hg] at hat
      simp at hat
  | some c =>
      rw [hg] at hat
      simp only [Option.some_bind] at hat
      simp only [hg]
      exact beq_iff_eq.mpr hat

/-- C7: when a link mark (with a truthy href) covers the current selection,
submitting the link sub-form with an empty URL replaces the content of the
link's full range `[a, b)` — a maximal run of characters carrying that href —
with the given display text as plain, unlinked characters. -/
theorem editor_empty_url_removes_link (st : EditorState) (h dt : String)
    (hne : h ≠ "")
    (hat : getMarkHref st = some h)
    (hsel : st.selFrom ≤ st.selTo)
    (hwf : st.selTo ≤ st.doc.length)
    (hcov : ∀ i, i < st.doc.length → st.selFrom ≤ i → i < st.selTo →
      linkedAt st.doc h i = true) :
    ∃ a b, a ≤ st.selFrom ∧ st.selTo ≤ b ∧ b ≤ st.doc.length ∧
      (∀ i, a ≤ i → i < b → linkedAt st.doc h i = true) ∧
      (a = 0 ∨ linkedAt st.doc h (a - 1) = false) ∧
      linkedAt st.doc h b = false ∧
      submitLinkForm st "" dt =
        ⟨st.doc.take a ++ dt.data.map (fun c => ⟨c, none⟩) ++ st.doc.drop b,
         a + dt.length, a + dt.length⟩ := by
  obtain ⟨doc, lo, hi⟩ := st
  dsimp only at hat hsel hwf hcov ⊢
  have hlinked_lo : linkedAt doc h lo = true := getMarkHref_linkedAt hat
  have hlo_lt : lo < doc.length := linkedAt_lt_length hlinked_lo
  set a := runStart doc h lo with ha
  set b := runEnd doc h lo with hb
  have hale : a ≤ lo := runStart_le doc h lo
  have hlob : lo ≤ b := runEndAux_ge doc h (doc.length + 1) lo
  have hble : b ≤ doc.length :=
    runEndAux_le_length doc h (doc.length + 1) lo (by omega)
  have hnotb : linkedAt doc h b = false :=
    runEndAux_not_linked doc h (doc.length + 1) lo (by omega)
  have hhib : hi ≤ b := by
    by_contra hc
    push_neg at hc
    have hlink_b : linkedAt doc h b = true := hcov b (by omega) (by omega) hc
    rw [hlink_b] at hnotb
    exact absurd hnotb (by simp)
  have hlinkedab : ∀ i, a ≤ i → i < b → linkedAt doc h i = true := by
    intro i h1 h2
    rcases Nat.lt_or_ge i lo with hlt | hge
    · exact runStart_linked doc h lo hlinked_lo i h1 (Nat.le_of_lt hlt)
    · exact runEndAux_linked doc h (doc.length + 1) lo i hge h2
  have hamax : a = 0 ∨ linkedAt doc h (a - 1) = false := runStart_max doc h lo
  have hlob1 : lo + 1 ≤ b := runEnd_gt doc h lo hlinked_lo
  have hlinked_a : linkedAt doc h a = true := hlinkedab a (Nat.le_refl a) (by omega)
  have hpop : linkPopoverOpen ⟨doc, lo, hi⟩ = extendMarkRange ⟨doc, lo, hi⟩ := by
    unfold linkPopoverOpen
    rw [hat]
    dsimp only
    rw [if_neg hne]
  have hext : extendMarkRange ⟨doc, lo, hi⟩ = ⟨doc, a, b⟩ := by
    unfold extendMarkRange
    rw [hat]
    dsimp only
    rw [if_pos ⟨hale, hhib⟩]
  have hga : getMarkHref ⟨doc, a, b⟩ = some h := linkedAt_getMarkHref hlinked_a
  have hext2 : extendMarkRange ⟨doc, a, b⟩ = ⟨doc, a, b⟩ := by
    unfold extendMarkRange
    rw [hga]
    dsimp only
    have hsa : runStart doc h a = a := runStart_fix doc h a hamax
    have hsb : runEnd doc h a = b :=
      runEndAux_eq doc h (doc.length + 1) a b (by omega) (by omega) hlinkedab hnotb
    rw [hsa, hsb]
    rw [if_pos ⟨Nat.le_refl a, Nat.le_refl b⟩]
  refine ⟨a, b, hale, hhib, hble, hlinkedab, hamax, hnotb, ?_⟩
  unfold submitLinkForm
  rw [hpop, hext]
  unfold Toolbar.setLink
  dsimp only
  have hbr : setLinkBranch ⟨doc, a, b⟩ "" = LinkBranch.remove := by
    unfold setLinkBranch
    rw [if_pos rfl]
  rw [hbr]
  dsimp only
  rw [hext2]
  unfold unsetLink insertContentAt
  dsimp only
  rw [mapRange_take doc a b _ (by omega), mapRange_drop doc a b _ (by omega) hble]

/-- Witness for C7: on `xaby` with `ab` linked to "u" and selection over the
`a`, submitting an empty URL with display text "T" unlinks and replaces the
full linked range. -/
theorem editor_empty_url_removes_link_witness :
    getMarkHref ⟨sampleLinkedDoc, 1, 2⟩ = some "u" ∧
    ∃ a b, a ≤ 1 ∧ 2 ≤ b ∧ b ≤ sampleLinkedDoc.length ∧
      (∀ i, a ≤ i → i < b → linkedAt sampleLinkedDoc "u" i = true) ∧
      (a = 0 ∨ linkedAt sampleLinkedDoc "u" (a - 1) = false) ∧
      linkedAt sampleLinkedDoc "u" b = false ∧
      submitLinkForm ⟨sampleLinkedDoc, 1, 2⟩ "" "T" =
        ⟨sampleLinkedDoc.take a ++ "T".data.map (fun c => ⟨c, none⟩) ++
           sampleLinkedDoc.drop b,
         a + "T".length, a + "T".length⟩ :=
  ⟨by decide,
   editor_empty_url_removes_link ⟨sampleLinkedDoc, 1, 2⟩ "u" "T"
     (by decide) (by decide) (by decide) (by decide) (by decide)⟩

theorem get?_head_after {α : Type} (A : List α) (x : α) (R B : List α) (lo : Nat)
    (hA : A.length = lo) :
    (A ++ (x :: R) ++ B).get? lo = some x := by
  rw [List.append_assoc]
  rw [List.get?_append_right (by omega)]
  simp [hA]

/-- C8 counterexample: on `ab` with only `b` linked, selection over `a`, URL
"v" and empty display text, the code deletes the selection and then re-marks
the neighbouring link run with "v" — the link mark is not confined to the
(empty) replacement range the claim describes. -/
theorem editor_replace_selection_cex :
    Toolbar.setLink ⟨mixedDoc, 0, 1⟩ "v" "" ≠
      ⟨mixedDoc.take 0 ++ "".data.map (fun c => ⟨c, some "v"⟩) ++ mixedDoc.drop 1,
       0, 0 + "".length⟩ := by
  decide

/-- C8 (amended): for every non-collapsed selection, non-empty URL and
non-empty display text, the toolbar's setLink replaces exactly the selected
range with the display text and applies the link mark carrying that URL to
exactly the replacement range `[from, from + length displayText)`, leaving
the rest of the document untouched. -/
theorem editor_replace_selection_links_exact_range (st : EditorState) (url dt : String)
    (hwf : st.selTo ≤ st.doc.length) (hlt : st.selFrom < st.selTo)
    (hurl : url ≠ "") (hdt : dt ≠ "") :
    Toolbar.setLink st url dt =
      ⟨st.doc.take st.selFrom ++ dt.data.map (fun c => ⟨c, some url⟩) ++
         st.doc.drop st.selTo,
       st.selFrom, st.selFrom + dt.length⟩ := by
  obtain ⟨doc, lo, hi⟩ := st
  dsimp only at hwf hlt ⊢
  have hdtl : dt.length = dt.data.length := rfl
  have hbr : setLinkBranch ⟨doc, lo, hi⟩ url = LinkBranch.replaceSel := by
    unfold setLinkBranch
    rw [if_neg hurl, if_neg (Nat.ne_of_lt hlt)]
  have hstep1 : Toolbar.setLink ⟨doc, lo, hi⟩ url dt =
      setLinkMark
        (extendMarkRange
          (setTextSelection (insertContentAt ⟨doc, lo, hi⟩ lo hi dt) lo (lo + dt.length)))
        url := by
    unfold Toolbar.setLink
    dsimp only
    rw [hbr]
  rw [hstep1]
  obtain ⟨c0, rest, hdd⟩ : ∃ c0 rest, dt.data = c0 :: rest := by
    cases hdd : dt.data with
    | nil =>
        exact absurd (String.ext (hdd.trans rfl)) hdt
    | cons c0 rest => exact ⟨c0, rest, rfl⟩
  have htake_len : (doc.take lo).length = lo := by
    rw [List.length_take]
    omega
  have hD1len : (doc.take lo ++ (dt.data.map fun c => (⟨c, none⟩ : LChar)) ++
      doc.drop hi).length = lo + dt.data.length + (doc.length - hi) := by
    rw [List.length_append, List.length_append, htake_len, List.length_map,
      List.length_drop]
  have hsel1 : setTextSelection (insertContentAt ⟨doc, lo, hi⟩ lo hi dt) lo (lo + dt.length) =
      ⟨doc.take lo ++ (dt.data.map fun c => (⟨c, none⟩ : LChar)) ++ doc.drop hi,
       lo, lo + dt.length⟩ := by
    unfold insertContentAt setTextSelection
    dsimp only
    rw [Nat.min_eq_left (by omega), Nat.min_eq_left (by omega)]
  rw [hsel1]
  have hget : (doc.take lo ++ (dt.data.map fun c => (⟨c, none⟩ : LChar)) ++
      doc.drop hi).get? lo = some ⟨c0, none⟩ := by
    rw [hdd]
    exact get?_head_after (doc.take lo) ⟨c0, none⟩ (rest.map fun c => ⟨c, none⟩)
      (doc.drop hi) lo htake_len
  have hmh : getMarkHref ⟨doc.take lo ++ (dt.data.map fun c => (⟨c, none⟩ : LChar)) ++
      doc.drop hi, lo, lo + dt.length⟩ = none := by
    unfold getMarkHref
    dsimp only
    rw [hget]
    rfl
  have hext3 : extendMarkRange ⟨doc.take lo ++ (dt.data.map fun c => (⟨c, none⟩ : LChar)) ++
      doc.drop hi, lo, lo + dt.length⟩ =
      ⟨doc.take lo ++ (dt.data.map fun c => (⟨c, none⟩ : LChar)) ++ doc.drop hi,
       lo, lo + dt.length⟩ := by
    unfold extendMarkRange
    rw [hmh]
  rw [hext3]
  unfold setLinkMark
  dsimp only
  rw [mapRange_append (doc.take lo) (dt.data.map fun c => (⟨c, none⟩ : LChar))
    (doc.drop hi) lo (lo + dt.length) _ htake_len (by rw [List.length_map]; omega)]
  rw [List.map_map]
  rfl

/-- Witness for C8: on the link-free document `xABy` with selection over
`AB`, URL "v" and display text "CD", exactly the selection is replaced by a
"v"-linked "CD". -/
theorem editor_replace_selection_links_exact_range_witness :
    (1 : Nat) < 3 ∧ ("CD" : String) ≠ "" ∧
    Toolbar.setLink ⟨plainDoc, 1, 3⟩ "v" "CD" =
      ⟨plainDoc.take 1 ++ "CD".data.map (fun c => ⟨c, some "v"⟩) ++ plainDoc.drop 3,
       1, 1 + "CD".length⟩ :=
  ⟨by decide, by decide,
   editor_replace_selection_links_exact_range ⟨plainDoc, 1, 3⟩ "v" "CD"
     (by decide) (by decide) (by decide) (by decide)⟩
